import Mathlib

/-!
Shallow embedding of the hidden-maze game's core: the `RaycastSystem`
visibility engine (ray marching, wall occlusion, quantized-position cache)
and the `Game` movement/exploration logic (collision tests, explored and
visited cell sets, event notification).  Translated from the JavaScript
source.  Machine numbers are modelled as exact rationals, JS `Math.floor`
is `Int.floor`, the JS `%` operator is truncated remainder (`jsMod`), and
JS string keys of the form "x,y" are modelled as integer pairs.
-/

namespace HiddenMaze

/-- Pixel-space visible point `{x, y, distance}` recorded by a ray march;
`distance` is the cumulative path length from the ray origin. -/
structure Point where
  x : ℚ
  y : ℚ
  distance : ℚ
deriving DecidableEq

/-- Integer cell coordinate `(col, row)`; models the JS string key "x,y"
used for Set and Map membership. -/
abbrev Cell := ℤ × ℤ

/-- External maze collaborator: grid size in cells, boundary-wall queries
(`hwall row col` models `getWall('horizontal', row, col)`, `vwall row col`
models `getWall('vertical', row, col)`) and the end cell (`getEnd`). -/
structure Maze where
  width : ℤ
  height : ℤ
  hwall : ℤ → ℤ → Bool
  vwall : ℤ → ℤ → Bool
  endCell : ℤ × ℤ

/-- Rounding toward zero, as used by the JS `%` operator. -/
def jsTrunc (q : ℚ) : ℤ := if 0 ≤ q then ⌊q⌋ else ⌈q⌉

/-- JS remainder `a % b`: `a - b * trunc(a / b)` (sign follows the dividend). -/
def jsMod (a b : ℚ) : ℚ := a - b * (jsTrunc (a / b) : ℚ)

/-- Cache-key component produced by `toFixed(1)`: the value in tenths,
rounded to the nearest integer with ties toward the larger value, as
`Number.prototype.toFixed` specifies. -/
def key10 (q : ℚ) : ℤ := ⌊10 * q + 1 / 2⌋

/-- Quantized cache key of a position, modelling the string
`playerX.toFixed(1) + "," + playerY.toFixed(1)`. -/
def qkey (p : ℚ × ℚ) : ℤ × ℤ := (key10 p.1, key10 p.2)

/-- The `RaycastSystem` configuration object. -/
structure RayConfig where
  rayCount : ℕ
  maxRayDistance : ℚ
  rayStep : ℚ
  fov : ℚ
deriving DecidableEq

/-- A cache value: the point list and cell set stored for one quantized key. -/
structure CacheEntry where
  points : List Point
  cells : List Cell
deriving DecidableEq

/-- Mutable state of a `RaycastSystem` instance.  The JS `Map` cache is an
insertion-ordered association list; `visibleCells` is the JS `Set` as an
insertion-ordered duplicate-free list. -/
structure RCState where
  config : RayConfig
  visiblePoints : List Point
  visibleCells : List Cell
  cache : List ((ℤ × ℤ) × CacheEntry)
deriving DecidableEq

/-- `RaycastSystem.isPointInWall`: the point's cell is outside the grid, or
the point lies in the tenth-of-a-cell band adjacent to a set wall segment.
The sequence of early-`return true` checks of the source is the
left-to-right disjunction below. -/
def isPointInWall (m : Maze) (cs x y : ℚ) : Bool :=
  decide (⌊x / cs⌋ < 0) || decide (m.width ≤ ⌊x / cs⌋) ||
  decide (⌊y / cs⌋ < 0) || decide (m.height ≤ ⌊y / cs⌋) ||
  (decide (jsMod y cs / cs < 1 / 10) && m.hwall ⌊y / cs⌋ ⌊x / cs⌋) ||
  (decide (9 / 10 < jsMod y cs / cs) && m.hwall (⌊y / cs⌋ + 1) ⌊x / cs⌋) ||
  (decide (jsMod x cs / cs < 1 / 10) && m.vwall ⌊y / cs⌋ ⌊x / cs⌋) ||
  (decide (9 / 10 < jsMod x cs / cs) && m.vwall ⌊y / cs⌋ (⌊x / cs⌋ + 1))

/-- One step of the `while (distance < maxDistance)` loop of
`RaycastSystem.castRay`, with a fuel argument making the recursion
structural.  The fuel is chosen large enough (`rayFuel`) that the loop
always exits through one of its own conditions, never by exhaustion. -/
def castRayAux (m : Maze) (cs dirX dirY stepLen maxDist : ℚ) :
    ℕ → ℚ → ℚ → ℚ → List Point
  | 0, _, _, _ => []
  | fuel + 1, cx, cy, dist =>
    if dist < maxDist then
      if isPointInWall m cs (cx + dirX * stepLen) (cy + dirY * stepLen) then []
      else
        if ⌊(cx + dirX * stepLen) / cs⌋ < 0 ∨ m.width ≤ ⌊(cx + dirX * stepLen) / cs⌋ ∨
            ⌊(cy + dirY * stepLen) / cs⌋ < 0 ∨ m.height ≤ ⌊(cy + dirY * stepLen) / cs⌋ then
          [⟨cx + dirX * stepLen, cy + dirY * stepLen, dist + stepLen⟩]
        else
          ⟨cx + dirX * stepLen, cy + dirY * stepLen, dist + stepLen⟩ ::
            castRayAux m cs dirX dirY stepLen maxDist fuel
              (cx + dirX * stepLen) (cy + dirY * stepLen) (dist + stepLen)
    else []

/-- Fuel bound for `castRayAux`: one more than the number of steps needed to
reach `maxDist`.  A nonpositive step would make the source loop diverge; the
spec requires `rayStep > 0`, and all theorems assume it. -/
def rayFuel (stepLen maxDist : ℚ) : ℕ :=
  if 0 < stepLen then ⌈maxDist / stepLen⌉.toNat + 1 else 0

/-- `RaycastSystem.castRay`: march a point from the origin along
`(dirX, dirY)` in increments of `rayStep * cellSize` pixels, recording each
non-occluded point, stopping at a wall, past the grid, or at
`maxRayDistance * cellSize` path length.  `(dirX, dirY)` stands for the
values `(Math.cos(angle), Math.sin(angle))` computed by the caller. -/
def castRay (cfg : RayConfig) (m : Maze) (cs sx sy dirX dirY : ℚ) : List Point :=
  castRayAux m cs dirX dirY (cfg.rayStep * cs) (cfg.maxRayDistance * cs)
    (rayFuel (cfg.rayStep * cs) (cfg.maxRayDistance * cs)) sx sy 0

/-- Lookup in the insertion-ordered cache, as `Map.prototype.get`. -/
def findEntry (k : ℤ × ℤ) : List ((ℤ × ℤ) × CacheEntry) → Option CacheEntry
  | [] => none
  | e :: rest => if e.1 = k then some e.2 else findEntry k rest

/-- `Set.prototype.add` on the insertion-ordered cell set. -/
def addCell (s : List Cell) (c : Cell) : List Cell :=
  if c ∈ s then s else s ++ [c]

/-- The visible-cell set derived from a point list: each point's cell,
added in order (the two nested loops of `update` add cells ray by ray,
point by point, which is the same fold over the concatenated list). -/
def cellsOf (cs : ℚ) (pts : List Point) : List Cell :=
  pts.foldl (fun acc p => addCell acc (⌊p.x / cs⌋, ⌊p.y / cs⌋)) []

/-- The concatenation of all rays' points on a cache miss: ray `i` is cast
at `angle = i * (fov / rayCount)` degrees.  `rayDir` models the composition
of the degree-to-radian conversion with `Math.cos`/`Math.sin`, giving the
direction vector for a given angle in degrees. -/
def computeRays (rayDir : ℚ → ℚ × ℚ) (cfg : RayConfig) (m : Maze) (cs px py : ℚ) :
    List Point :=
  ((List.range cfg.rayCount).map (fun i =>
    castRay cfg m cs px py
      (rayDir ((i : ℚ) * (cfg.fov / (cfg.rayCount : ℚ)))).1
      (rayDir ((i : ℚ) * (cfg.fov / (cfg.rayCount : ℚ)))).2)).flatten

/-- `Map.prototype.set` of a fresh key followed by the size-bound check:
append the entry, then if the cache now exceeds 100 entries delete the
first (oldest-inserted) key. -/
def pushEntry (c : List ((ℤ × ℤ) × CacheEntry)) (k : ℤ × ℤ) (e : CacheEntry) :
    List ((ℤ × ℤ) × CacheEntry) :=
  if 100 < (c ++ [(k, e)]).length then (c ++ [(k, e)]).tail else c ++ [(k, e)]

/-- `RaycastSystem.update`: on a cache hit return the stored point list and
cell set unchanged; on a miss cast `rayCount` rays from the exact (not
quantized) origin, derive the cell set, and cache the results under the
quantized key, evicting the oldest entry past 100. -/
def update (rayDir : ℚ → ℚ × ℚ) (s : RCState) (px py : ℚ) (m : Maze) (cs : ℚ) :
    List Point × RCState :=
  match findEntry (key10 px, key10 py) s.cache with
  | some e => (e.points, { s with visiblePoints := e.points, visibleCells := e.cells })
  | none =>
    (computeRays rayDir s.config m cs px py,
     { config := s.config,
       visiblePoints := computeRays rayDir s.config m cs px py,
       visibleCells := cellsOf cs (computeRays rayDir s.config m cs px py),
       cache := pushEntry s.cache (key10 px, key10 py)
         ⟨computeRays rayDir s.config m cs px py,
          cellsOf cs (computeRays rayDir s.config m cs px py)⟩ })

/-- `RaycastSystem.clearCache`. -/
def clearCache (s : RCState) : RCState := { s with cache := [] }

/-- `RaycastSystem.setRayCount`: clamp to `[36, 720]`, then clear the cache. -/
def setRayCount (s : RCState) (count : ℕ) : RCState :=
  clearCache { s with config := { s.config with rayCount := max 36 (min count 720) } }

/-- `RaycastSystem.setMaxRayDistance`: clamp to `[1, 20]`, then clear the cache. -/
def setMaxRayDistance (s : RCState) (d : ℚ) : RCState :=
  clearCache { s with config := { s.config with maxRayDistance := max 1 (min d 20) } }

/-- `RaycastSystem.setFOV`: clamp to `[45, 360]`, then clear the cache. -/
def setFOV (s : RCState) (fov : ℚ) : RCState :=
  clearCache { s with config := { s.config with fov := max 45 (min fov 360) } }

/-- Direction vectors `(cos θ, sin θ)` at the four cardinal angles (degrees).
These are the exact real values of `Math.cos`/`Math.sin` after the
degree-to-radian conversion; the double-precision deviations (of order
`1e-16`) do not change any floor or band comparison in the scenarios
covered here. -/
def cardinalDir (deg : ℚ) : ℚ × ℚ :=
  if deg = 0 then (1, 0)
  else if deg = 90 then (0, 1)
  else if deg = 180 then (-1, 0)
  else if deg = 270 then (0, -1)
  else (1, 0)

/-- A `w × h` maze with boundary walls only (no internal walls). -/
def openMaze (w h : ℤ) : Maze where
  width := w
  height := h
  hwall := fun r c => decide ((r = 0 ∨ r = h) ∧ 0 ≤ c ∧ c < w)
  vwall := fun r c => decide ((c = 0 ∨ c = w) ∧ 0 ≤ r ∧ r < h)
  endCell := (w - 1, h - 1)

/-- A sequence of `update` calls folded over a list of origins, with a
fixed maze and cell size. -/
def runUpdates (rayDir : ℚ → ℚ × ℚ) (m : Maze) (cs : ℚ) (s : RCState)
    (ps : List (ℚ × ℚ)) : RCState :=
  ps.foldl (fun st p => (update rayDir st p.1 p.2 m cs).2) s

/-! ### Game core (`src/game.js`) -/

/-- The four boolean directional inputs (`this.moveInput`). -/
structure MoveInput where
  up : Bool
  down : Bool
  left : Bool
  right : Bool
deriving DecidableEq

/-- `this.player`: pixel position, previous accepted position, radius. -/
structure PlayerState where
  x : ℚ
  y : ℚ
  prevX : ℚ
  prevY : ℚ
  radius : ℚ
deriving DecidableEq

/-- Game status flags (`this.state`; the timestamps are external). -/
structure GameFlags where
  isRunning : Bool
  isPaused : Bool
  isGameOver : Bool
  isVictory : Bool
deriving DecidableEq

/-- State of a `Game` instance.  `explored` and `visited` are the JS `Set`s
as insertion-ordered duplicate-free lists of cells. -/
structure Game where
  cellSize : ℚ
  mazeSize : ℚ
  moveSpeed : ℚ
  maze : Maze
  player : PlayerState
  explored : List Cell
  visited : List Cell
  moveInput : MoveInput
  flags : GameFlags
  rcs : RCState

/-- The data object passed to `onCellExplored` callbacks. -/
structure ExploreData where
  x : ℤ
  y : ℤ
  totalExplored : ℕ
  totalCells : ℚ

/-- An `onCellExplored` callback.  A callback that throws is modelled by
returning `Except.error` with its message; the try/catch in
`Game.triggerEvent` converts that into a logged entry. -/
abbrev Listener := ExploreData → Except String Unit

/-- One record of the frame's event log. -/
inductive EvItem where
  | move (fromX fromY toX toY : ℚ)
  | explored (x : ℤ) (y : ℤ) (totalExplored : ℕ) (results : List (Except String Unit))
  | victory

/-- `Game.triggerEvent` for `onCellExplored`: invoke every registered
callback in order inside a per-callback try/catch; a fault is recorded in
the result list (the caught-and-logged error) and the loop continues. -/
def triggerExplored (ls : List Listener) (d : ExploreData) : List (Except String Unit) :=
  ls.map (fun cb => cb d)

/-- One iteration of the explored-set loop of `Game.updateVisibility`: skip
cells already explored, otherwise append the cell and fire the
`onCellExplored` notification with the running explored count. -/
def exploreStep (ls : List Listener) (totalCells : ℚ)
    (st : List Cell × List EvItem) (c : Cell) : List Cell × List EvItem :=
  if c ∈ st.1 then st
  else
    (st.1 ++ [c],
     st.2 ++ [EvItem.explored c.1 c.2 (st.1 ++ [c]).length
       (triggerExplored ls
         { x := c.1, y := c.2, totalExplored := (st.1 ++ [c]).length,
           totalCells := totalCells })])

/-- `Game.updateVisibility`: run the raycast system at the player's pixel
position, then fold every visible cell into the explored set, firing a
discovery notification for each newly explored cell.  (The legacy
`ViewSystem` update kept for backward compatibility is outside this core.) -/
def updateVisibility (rayDir : ℚ → ℚ × ℚ) (ls : List Listener) (g : Game) :
    Game × List EvItem :=
  let u := update rayDir g.rcs g.player.x g.player.y g.maze g.cellSize
  let f := u.2.visibleCells.foldl (exploreStep ls (g.mazeSize * g.mazeSize))
    (g.explored, [])
  ({ g with rcs := u.2, explored := f.1 }, f.2)

/-- The horizontal-wall collision test of `Game.checkWallCollision` for the
wall segment in row `wallRow` above/below the checked cell column `checkX`:
the wall is set, the perpendicular distance is below the radius, and the
candidate's x lies within the segment's span. -/
def hwallHit (m : Maze) (cs x y radius : ℚ) (checkX wallRow : ℤ) : Bool :=
  m.hwall wallRow checkX &&
    decide (|y - (wallRow : ℚ) * cs| < radius ∧
      (checkX : ℚ) * cs ≤ x ∧ x ≤ ((checkX : ℚ) + 1) * cs)

/-- The vertical-wall collision test, symmetric to `hwallHit`. -/
def vwallHit (m : Maze) (cs x y radius : ℚ) (checkY wallCol : ℤ) : Bool :=
  m.vwall checkY wallCol &&
    decide (|x - (wallCol : ℚ) * cs| < radius ∧
      (checkY : ℚ) * cs ≤ y ∧ y ≤ ((checkY : ℚ) + 1) * cs)

/-- The four wall-segment tests run for one cell of the 3×3 neighborhood:
top and bottom horizontal walls, left and right vertical walls. -/
def cellCollision (m : Maze) (cs x y radius : ℚ) (cellX cellY : ℤ) (o : ℤ × ℤ) : Bool :=
  hwallHit m cs x y radius (cellX + o.1) (cellY + o.2) ||
  hwallHit m cs x y radius (cellX + o.1) (cellY + o.2 + 1) ||
  vwallHit m cs x y radius (cellY + o.2) (cellX + o.1) ||
  vwallHit m cs x y radius (cellY + o.2) (cellX + o.1 + 1)

/-- The `(dx, dy)` offsets of the 3×3 neighborhood loop, in source order
(`dy` outer from -1 to 1, `dx` inner from -1 to 1). -/
def offsets : List (ℤ × ℤ) :=
  [(-1, -1), (0, -1), (1, -1), (-1, 0), (0, 0), (1, 0), (-1, 1), (0, 1), (1, 1)]

/-- `Game.checkWallCollision`: some cell of the 3×3 neighborhood of the
candidate's cell has a set wall segment within `radius` of the candidate
along its perpendicular and containing it along its span. -/
def checkWallCollision (m : Maze) (cs x y radius : ℚ) : Bool :=
  offsets.any (cellCollision m cs x y radius ⌊x / cs⌋ ⌊y / cs⌋)

/-- `Game.canMoveTo`: inside the maze rectangle with the player radius as
margin, and free of wall collisions. -/
def canMoveTo (g : Game) (x y : ℚ) : Bool :=
  if x - g.player.radius < 0 ∨ g.mazeSize * g.cellSize < x + g.player.radius ∨
      y - g.player.radius < 0 ∨ g.mazeSize * g.cellSize < y + g.player.radius then
    false
  else !checkWallCollision g.maze g.cellSize x y g.player.radius

/-- The raw movement vector summed from the four directional inputs
(`up: -y, down: +y, left: -x, right: +x`). -/
def moveDelta (mi : MoveInput) : ℚ × ℚ :=
  ((if mi.left then -1 else 0) + (if mi.right then 1 else 0),
   (if mi.up then -1 else 0) + (if mi.down then 1 else 0))

/-- The double-precision value of `Math.sqrt(2)`, the only irrational
normalization length reachable from the unit input deltas. -/
def jsSqrt2 : ℚ := 6369051672525773 / 4503599627370496

/-- The candidate position of `Game.updatePlayerPosition`: the raw delta
normalized to unit length (length is `1` for an axis move, `Math.sqrt(2)`
for a diagonal; the zero vector never reaches this point), scaled by
`moveSpeed`, added to the current position. -/
def candidatePos (g : Game) : ℚ × ℚ :=
  ((g.player.x + (moveDelta g.moveInput).1 /
      (if (moveDelta g.moveInput).1 ≠ 0 ∧ (moveDelta g.moveInput).2 ≠ 0 then jsSqrt2 else 1) *
      g.moveSpeed),
   (g.player.y + (moveDelta g.moveInput).2 /
      (if (moveDelta g.moveInput).1 ≠ 0 ∧ (moveDelta g.moveInput).2 ≠ 0 then jsSqrt2 else 1) *
      g.moveSpeed))

/-- `Game.updatePlayerPosition`: blocked when the game is not running,
paused, or over; no move on zero input; otherwise test the candidate with
`canMoveTo` and either commit the full step (recording the previous
position, marking the current cell visited, firing `onMove`, updating
visibility, and checking the victory distance) or change nothing.  The
squared-distance comparison is equivalent to the source's
`sqrt(...) < radius * 2` on reals.  Returns (moved, new state, event log). -/
def updatePlayerPosition (rayDir : ℚ → ℚ × ℚ) (ls : List Listener) (g : Game) :
    Bool × Game × List EvItem :=
  if g.flags.isRunning = false ∨ g.flags.isPaused = true ∨ g.flags.isGameOver = true then
    (false, g, [])
  else if moveDelta g.moveInput = (0, 0) then
    (false, g, [])
  else
    if canMoveTo g (candidatePos g).1 (candidatePos g).2 then
      let c := candidatePos g
      let g1 : Game :=
        { g with
          player := { x := c.1, y := c.2, prevX := g.player.x, prevY := g.player.y,
                      radius := g.player.radius },
          visited := addCell g.visited (⌊c.1 / g.cellSize⌋, ⌊c.2 / g.cellSize⌋) }
      let r2 := updateVisibility rayDir ls g1
      if (c.1 - ((g.maze.endCell.1 : ℚ) * g.cellSize + g.cellSize / 2)) ^ 2 +
          (c.2 - ((g.maze.endCell.2 : ℚ) * g.cellSize + g.cellSize / 2)) ^ 2 <
          (g.player.radius * 2) ^ 2 then
        (true,
         { r2.1 with flags := { isRunning := false, isPaused := r2.1.flags.isPaused,
                                isGameOver := true, isVictory := true } },
         EvItem.move g.player.x g.player.y c.1 c.2 :: r2.2 ++ [EvItem.victory])
      else
        (true, r2.1, EvItem.move g.player.x g.player.y c.1 c.2 :: r2.2)
    else (false, g, [])

/-- A sequence of frames: each frame sets the directional input and runs
`updatePlayerPosition`, within one maze instance (no re-initialization). -/
def runFrames (rayDir : ℚ → ℚ × ℚ) (ls : List Listener) (g : Game)
    (frames : List MoveInput) : Game :=
  frames.foldl (fun h mi => (updatePlayerPosition rayDir ls { h with moveInput := mi }).2.1) g

/-! ### Concrete instances used by scenario theorems and witnesses -/

/-- Last element of a list, as the source's "last recorded point". -/
def lastOpt {α : Type} : List α → Option α
  | [] => none
  | [a] => some a
  | _ :: b :: t => lastOpt (b :: t)

/-- The configuration of the §8 scenario: 4 rays, 360° fov, max distance
2 cells, step a tenth of a cell. -/
def cfg4 : RayConfig := ⟨4, 2, 1 / 10, 360⟩

/-- The 5×5 open maze of the §8 scenario. -/
def m5 : Maze := openMaze 5 5

/-- A fresh raycast system carrying the scenario configuration. -/
def rcs0 : RCState := ⟨cfg4, [], [], []⟩

/-- Configuration whose step does not divide the maximum ray length
(`rayStep = 0.4`, `maxRayDistance = 1`). -/
def cfgX : RayConfig := ⟨1, 1, 2 / 5, 360⟩

/-- A 10×10 open maze. -/
def mX : Maze := openMaze 10 10

/-- A 1×1 maze with no walls at all (the wall grid is an external
collaborator; any wall function is admissible). -/
def cxMaze : Maze := ⟨1, 1, fun _ _ => false, fun _ _ => false, (0, 0)⟩

/-- A one-ray configuration making cache-trace computations small. -/
def cxCfg : RayConfig := ⟨1, 1, 1 / 2, 360⟩

/-- A fresh raycast system with the one-ray configuration. -/
def cxS0 : RCState := ⟨cxCfg, [], [], []⟩

/-- One hundred origins with pairwise distinct quantized keys, all
distinct from the key of `(0.04, 5)`. -/
def cxFill : List (ℚ × ℚ) := (List.range 100).map (fun j => (((j : ℚ) + 1), 5))

/-- State after a first `update` at `(0.04, 5)`. -/
def cxS1 : RCState := (update cardinalDir cxS0 (1 / 25) 5 cxMaze 10).2

/-- State after one hundred further updates at distinct quantized keys,
which evicts the entry for `(0.04, 5)`. -/
def cxS2 : RCState := runUpdates cardinalDir cxMaze 10 cxS1 cxFill

/-- Ninety-nine origins with distinct quantized keys, for the cache-bound
witness. -/
def w5mid : List (ℚ × ℚ) := (List.range 99).map (fun j => (((j : ℚ) + 1), 0))

/-- A 3×3 maze whose only wall segment is the horizontal wall at row 1 of
column 1. -/
def wallMaze : Maze := ⟨3, 3, fun r c => decide (r = 1 ∧ c = 1), fun _ _ => false, (2, 2)⟩

/-- A 3×3 maze whose only wall segment is the vertical wall at column 1 of
row 1. -/
def vWallMaze : Maze := ⟨3, 3, fun _ _ => false, fun r c => decide (r = 1 ∧ c = 1), (2, 2)⟩

/-- A running game inside `wallMaze` whose player sits near the single
horizontal wall. -/
def g3 : Game :=
  { cellSize := 40, mazeSize := 3, moveSpeed := 5, maze := wallMaze,
    player := ⟨45, 38, 45, 38, 8⟩, explored := [], visited := [],
    moveInput := ⟨false, false, false, false⟩, flags := ⟨true, false, false, false⟩,
    rcs := rcs0 }

/-- A game that has not been started (`isRunning = false`). -/
def g0 : Game :=
  { cellSize := 40, mazeSize := 3, moveSpeed := 5, maze := openMaze 3 3,
    player := ⟨60, 60, 60, 60, 8⟩, explored := [(1, 1)], visited := [(1, 1)],
    moveInput := ⟨false, false, false, true⟩, flags := ⟨false, false, false, false⟩,
    rcs := rcs0 }

/-! ### Claim theorems -/

/-- C8: each configuration setter clamps its argument to its valid interval
and unconditionally clears the whole cache: `setRayCount 10` leaves
`rayCount = 36`, `setRayCount 1000` leaves `rayCount = 720`, `setFOV 10`
leaves `fov = 45`, `setMaxRayDistance 50` leaves `maxRayDistance = 20`, and
after any setter call the cache is empty. -/
theorem c8_setters_clamp_and_clear_cache (s : RCState) :
    (setRayCount s 10).config.rayCount = 36 ∧
    (setRayCount s 1000).config.rayCount = 720 ∧
    (setFOV s 10).config.fov = 45 ∧
    (setMaxRayDistance s 50).config.maxRayDistance = 20 ∧
    (∀ n : ℕ, (setRayCount s n).cache = []) ∧
    (∀ q : ℚ, (setFOV s q).cache = []) ∧
    (∀ q : ℚ, (setMaxRayDistance s q).cache = []) := by
  refine ⟨rfl, rfl, ?_, ?_, fun n => rfl, fun q => rfl, fun q => rfl⟩
  · show max 45 (min (10 : ℚ) 360) = 45
    norm_num
  · show max 1 (min (50 : ℚ) 20) = 20
    norm_num

/-- C10: when the game is not running, is paused, or is over,
`updatePlayerPosition` returns `false` and changes nothing — player
position, explored set, visited set and flags are untouched and no event
fires. -/
theorem c10_blocked_frame_is_noop (rayDir : ℚ → ℚ × ℚ) (ls : List Listener) (g : Game)
    (h : g.flags.isRunning = false ∨ g.flags.isPaused = true ∨ g.flags.isGameOver = true) :
    updatePlayerPosition rayDir ls g = (false, g, []) := by
  unfold updatePlayerPosition
  rw [if_pos h]

/-- Witness for C10 at the unstarted game `g0` with directional input held. -/
theorem c10_blocked_frame_is_noop_witness :
    (g0.flags.isRunning = false ∨ g0.flags.isPaused = true ∨ g0.flags.isGameOver = true) ∧
      updatePlayerPosition cardinalDir [] g0 = (false, g0, []) :=
  ⟨Or.inl rfl, c10_blocked_frame_is_noop cardinalDir [] g0 (Or.inl rfl)⟩

/-- The explored-set component of the visibility fold does not depend on
the registered listeners (callback outcomes only reach the event log). -/
theorem exploreStep_foldl_fst (ls ls' : List Listener) (T : ℚ) :
    ∀ (cs : List Cell) (st st' : List Cell × List EvItem), st.1 = st'.1 →
      (cs.foldl (exploreStep ls T) st).1 = (cs.foldl (exploreStep ls' T) st').1 := by
  intro cs
  induction cs with
  | nil => intro st st' h; simpa using h
  | cons c rest ih =>
    intro st st' h
    simp only [List.foldl_cons]
    apply ih
    simp only [exploreStep, h]
    split_ifs <;> simp [h]

/-- C7: a movement step is atomic: either `canMoveTo` accepts the full
candidate position and the player becomes exactly that position with
`prevX`/`prevY` set to the old one, or the whole player record is
unchanged; no partial or slid position is ever produced. -/
theorem c7_movement_is_atomic (rayDir : ℚ → ℚ × ℚ) (ls : List Listener) (g : Game) :
    (updatePlayerPosition rayDir ls g).2.1.player = g.player ∨
    (moveDelta g.moveInput ≠ (0, 0) ∧
      canMoveTo g (candidatePos g).1 (candidatePos g).2 = true ∧
      (updatePlayerPosition rayDir ls g).2.1.player =
        ⟨(candidatePos g).1, (candidatePos g).2, g.player.x, g.player.y, g.player.radius⟩) := by
  simp only [updatePlayerPosition]
  split_ifs with h1 h2 h3 h4
  · left; rfl
  · left; rfl
  · right; exact ⟨h2, h3, rfl⟩
  · right; exact ⟨h2, h3, rfl⟩
  · left; rfl

/-- C9: a faulting `onCellExplored` callback is caught at the call site:
every registered callback is still invoked exactly once with the event
data (the result list has one logged outcome per listener, in order), and
the game state produced by the visibility update — in particular the
explored set already committed — is independent of the listeners and of
their outcomes. -/
theorem c9_listener_faults_are_isolated :
    (∀ (ls : List Listener) (d : ExploreData), (triggerExplored ls d).length = ls.length) ∧
    (∀ (ls : List Listener) (d : ExploreData) (i : Fin ls.length),
      (triggerExplored ls d)[(i : ℕ)]? = some (ls.get i d)) ∧
    (∀ (rayDir : ℚ → ℚ × ℚ) (ls ls' : List Listener) (g : Game),
      (updateVisibility rayDir ls g).1 = (updateVisibility rayDir ls' g).1) := by
  refine ⟨fun ls d => by simp [triggerExplored], fun ls d i => ?_, fun rayDir ls ls' g => ?_⟩
  · simp [triggerExplored, List.getElem?_map, List.getElem?_eq_getElem i.isLt,
      List.get_eq_getElem]
  · simp only [updateVisibility]
    rw [exploreStep_foldl_fst ls ls' (g.mazeSize * g.mazeSize)
      (update rayDir g.rcs g.player.x g.player.y g.maze g.cellSize).2.visibleCells
      (g.explored, []) (g.explored, []) rfl]

/-- `Set.prototype.add` never removes an element. -/
theorem mem_addCell {s : List Cell} {x : Cell} (c : Cell) (h : x ∈ s) :
    x ∈ addCell s c := by
  unfold addCell
  split_ifs <;> simp [h]

/-- `Set.prototype.add` never shrinks the set. -/
theorem length_le_addCell (s : List Cell) (c : Cell) :
    s.length ≤ (addCell s c).length := by
  unfold addCell
  split_ifs <;> simp

/-- The explored-set fold of `updateVisibility` only ever appends cells:
membership is preserved and the length never decreases. -/
theorem exploreStep_foldl_mono (ls : List Listener) (T : ℚ) :
    ∀ (cs : List Cell) (st : List Cell × List EvItem),
      (∀ x ∈ st.1, x ∈ (cs.foldl (exploreStep ls T) st).1) ∧
      st.1.length ≤ (cs.foldl (exploreStep ls T) st).1.length := by
  intro cs
  induction cs with
  | nil => intro st; simp
  | cons c rest ih =>
    intro st
    simp only [List.foldl_cons]
    have hstep : (∀ x ∈ st.1, x ∈ (exploreStep ls T st c).1) ∧
        st.1.length ≤ (exploreStep ls T st c).1.length := by
      simp only [exploreStep]
      split_ifs <;> simp +contextual
    exact ⟨fun x hx => (ih (exploreStep ls T st c)).1 x (hstep.1 x hx),
      le_trans hstep.2 (ih (exploreStep ls T st c)).2⟩

/-- One frame of `updatePlayerPosition` only grows the explored and
visited sets. -/
theorem updatePlayerPosition_mono (rayDir : ℚ → ℚ × ℚ) (ls : List Listener) (g : Game) :
    (∀ x ∈ g.explored, x ∈ (updatePlayerPosition rayDir ls g).2.1.explored) ∧
    (∀ x ∈ g.visited, x ∈ (updatePlayerPosition rayDir ls g).2.1.visited) ∧
    g.explored.length ≤ (updatePlayerPosition rayDir ls g).2.1.explored.length := by
  simp only [updatePlayerPosition]
  split_ifs with h1 h2 h3 h4
  · exact ⟨fun x hx => hx, fun x hx => hx, le_rfl⟩
  · exact ⟨fun x hx => hx, fun x hx => hx, le_rfl⟩
  · simp only [updateVisibility]
    refine ⟨fun x hx => ?_, fun x hx => mem_addCell _ hx, ?_⟩
    · exact (exploreStep_foldl_mono ls _ _ (g.explored, [])).1 x hx
    · exact (exploreStep_foldl_mono ls _ _ (g.explored, [])).2
  · simp only [updateVisibility]
    refine ⟨fun x hx => ?_, fun x hx => mem_addCell _ hx, ?_⟩
    · exact (exploreStep_foldl_mono ls _ _ (g.explored, [])).1 x hx
    · exact (exploreStep_foldl_mono ls _ _ (g.explored, [])).2
  · exact ⟨fun x hx => hx, fun x hx => hx, le_rfl⟩

/-- C6: within one maze instance, over any sequence of frames the
explored-cell set and the visited-cell set only gain elements: every
previously explored cell stays explored, every previously visited cell
stays visited, and the explored count is non-decreasing. -/
theorem c6_exploration_is_monotonic (rayDir : ℚ → ℚ × ℚ) (ls : List Listener)
    (frames : List MoveInput) :
    ∀ g : Game,
      (∀ x ∈ g.explored, x ∈ (runFrames rayDir ls g frames).explored) ∧
      (∀ x ∈ g.visited, x ∈ (runFrames rayDir ls g frames).visited) ∧
      g.explored.length ≤ (runFrames rayDir ls g frames).explored.length := by
  induction frames with
  | nil => intro g; simp [runFrames]
  | cons mi rest ih =>
    intro g
    have hstep := updatePlayerPosition_mono rayDir ls { g with moveInput := mi }
    have hrest := ih (updatePlayerPosition rayDir ls { g with moveInput := mi }).2.1
    simp only [runFrames, List.foldl_cons] at hrest ⊢
    exact ⟨fun x hx => hrest.1 x (hstep.1 x hx), fun x hx => hrest.2.1 x (hstep.2.1 x hx),
      le_trans hstep.2.2 hrest.2.2⟩

/-- Witness for C6: a concrete game, one frame of input. -/
theorem c6_exploration_is_monotonic_witness :
    ((1, 1) ∈ g0.explored ∧
      (1, 1) ∈ (runFrames cardinalDir [] g0 [⟨false, false, false, true⟩]).explored) ∧
    g0.explored.length ≤
      (runFrames cardinalDir [] g0 [⟨false, false, false, true⟩]).explored.length :=
  ⟨⟨by decide,
    (c6_exploration_is_monotonic cardinalDir [] [⟨false, false, false, true⟩] g0).1
      (1, 1) (by decide)⟩,
   (c6_exploration_is_monotonic cardinalDir [] [⟨false, false, false, true⟩] g0).2.2⟩

/-- `Map.prototype.has` in terms of the key list. -/
theorem findEntry_eq_none_iff (k : ℤ × ℤ) :
    ∀ c : List ((ℤ × ℤ) × CacheEntry), findEntry k c = none ↔ k ∉ c.map Prod.fst := by
  intro c
  induction c with
  | nil => simp [findEntry]
  | cons a t ih =>
    simp only [findEntry, List.map_cons, List.mem_cons]
    by_cases ha : a.1 = k
    · simp [ha]
    · have hk : ¬k = a.1 := fun hh => ha hh.symm
      simp [ha, hk, ih]

/-- Appending a fresh entry makes its key found, with that entry. -/
theorem findEntry_append_self (k : ℤ × ℤ) (e : CacheEntry) :
    ∀ c : List ((ℤ × ℤ) × CacheEntry), findEntry k c = none →
      findEntry k (c ++ [(k, e)]) = some e := by
  intro c
  induction c with
  | nil =>
    intro _
    simp [findEntry]
  | cons a t ih =>
    intro h
    simp only [findEntry] at h
    split_ifs at h with ha
    simp only [List.cons_append, findEntry, if_neg ha]
    exact ih h

/-- Inserting a fresh key with the size-bound eviction still leaves that
key present with its entry (the evicted entry, if any, is an older one). -/
theorem findEntry_pushEntry (k : ℤ × ℤ) (e : CacheEntry)
    (c : List ((ℤ × ℤ) × CacheEntry)) (h : findEntry k c = none) :
    findEntry k (pushEntry c k e) = some e := by
  unfold pushEntry
  split_ifs with hlen
  · cases c with
    | nil => simp at hlen
    | cons a t =>
      have ht : findEntry k t = none := by
        simp only [findEntry] at h
        split_ifs at h with ha
        exact h
      simpa using findEntry_append_self k e t ht
  · exact findEntry_append_self k e c h

/-- `update` on a cache hit: the stored point list and cell set are
returned and installed unchanged, and the cache is not modified. -/
theorem update_hit (rayDir : ℚ → ℚ × ℚ) (s : RCState) (px py : ℚ) (m : Maze) (cs : ℚ)
    (e : CacheEntry) (h : findEntry (key10 px, key10 py) s.cache = some e) :
    update rayDir s px py m cs =
      (e.points, { s with visiblePoints := e.points, visibleCells := e.cells }) := by
  unfold update
  rw [h]

/-- `update` on a cache miss: the result is recomputed from the exact
origin and cached under the quantized key. -/
theorem update_miss (rayDir : ℚ → ℚ × ℚ) (s : RCState) (px py : ℚ) (m : Maze) (cs : ℚ)
    (h : findEntry (key10 px, key10 py) s.cache = none) :
    update rayDir s px py m cs =
      (computeRays rayDir s.config m cs px py,
       { config := s.config,
         visiblePoints := computeRays rayDir s.config m cs px py,
         visibleCells := cellsOf cs (computeRays rayDir s.config m cs px py),
         cache := pushEntry s.cache (key10 px, key10 py)
           ⟨computeRays rayDir s.config m cs px py,
            cellsOf cs (computeRays rayDir s.config m cs px py)⟩ }) := by
  unfold update
  rw [h]

/-- C1 (amended): for consecutive calls to `update` with the same
quantized origin, unchanged maze and cell size, both calls return
value-identical point lists and leave value-identical visible-cell sets;
and a cache hit returns the stored point list and cell set unchanged. -/
theorem c1_cache_returns_identical_results (rayDir : ℚ → ℚ × ℚ) (s : RCState)
    (m : Maze) (cs px py qx qy : ℚ)
    (h1 : key10 px = key10 qx) (h2 : key10 py = key10 qy) :
    (update rayDir (update rayDir s px py m cs).2 qx qy m cs).1 =
      (update rayDir s px py m cs).1 ∧
    (update rayDir (update rayDir s px py m cs).2 qx qy m cs).2.visibleCells =
      (update rayDir s px py m cs).2.visibleCells ∧
    (∀ e, findEntry (key10 px, key10 py) s.cache = some e →
      update rayDir s px py m cs =
        (e.points, { s with visiblePoints := e.points, visibleCells := e.cells })) := by
  have hq : (key10 qx, key10 qy) = (key10 px, key10 py) := by rw [h1, h2]
  have hmain : (update rayDir (update rayDir s px py m cs).2 qx qy m cs).1 =
        (update rayDir s px py m cs).1 ∧
      (update rayDir (update rayDir s px py m cs).2 qx qy m cs).2.visibleCells =
        (update rayDir s px py m cs).2.visibleCells := by
    cases hfind : findEntry (key10 px, key10 py) s.cache with
    | some e =>
      have hu := update_hit rayDir s px py m cs e hfind
      have hcache : (update rayDir s px py m cs).2.cache = s.cache := by rw [hu]
      have hfind2 : findEntry (key10 qx, key10 qy) (update rayDir s px py m cs).2.cache
          = some e := by rw [hcache, hq, hfind]
      have hu2 := update_hit rayDir (update rayDir s px py m cs).2 qx qy m cs e hfind2
      constructor
      · rw [hu2, hu]
      · rw [hu2, hu]
    | none =>
      have hu := update_miss rayDir s px py m cs hfind
      have hfind2 : findEntry (key10 qx, key10 qy) (update rayDir s px py m cs).2.cache
          = some ⟨computeRays rayDir s.config m cs px py,
              cellsOf cs (computeRays rayDir s.config m cs px py)⟩ := by
        rw [hu, hq]
        exact findEntry_pushEntry _ _ _ hfind
      have hu2 := update_hit rayDir (update rayDir s px py m cs).2 qx qy m cs _ hfind2
      constructor
      · rw [hu2, hu]
      · rw [hu2, hu]
  exact ⟨hmain.1, hmain.2, fun e2 he2 => update_hit rayDir s px py m cs e2 he2⟩

/-- Witness for C1 at two origins sharing the quantized key `(0.0, 5.0)`. -/
theorem c1_cache_returns_identical_results_witness :
    (key10 (1 / 25) = key10 0 ∧ key10 5 = key10 5) ∧
    (update cardinalDir (update cardinalDir cxS0 (1 / 25) 5 cxMaze 10).2 0 5 cxMaze 10).1 =
      (update cardinalDir cxS0 (1 / 25) 5 cxMaze 10).1 :=
  ⟨⟨by with_unfolding_all decide, rfl⟩,
   (c1_cache_returns_identical_results cardinalDir cxS0 cxMaze 10 (1 / 25) 5 0 5
     (by with_unfolding_all decide) rfl).1⟩

set_option maxRecDepth 400000 in
/-- Counterexample to C1 as stated: the two compared calls use the same
quantized origin `(0.0, 5.0)` with the maze and cell size unchanged, but
one hundred distinct-key updates between them evict the first entry, and
the recomputation at the second call's exact origin `(0, 5)` yields a
point list differing from the first call's (computed at `(0.04, 5)`). -/
theorem c1_counterexample :
    qkey (1 / 25, 5) = qkey (0, 5) ∧
    (update cardinalDir cxS2 0 5 cxMaze 10).1 ≠
      (update cardinalDir cxS0 (1 / 25) 5 cxMaze 10).1 := by
  constructor
  · with_unfolding_all decide
  · with_unfolding_all decide

/-- The key list after `Map.set` of a fresh key plus the eviction check. -/
theorem keys_pushEntry (c : List ((ℤ × ℤ) × CacheEntry)) (k : ℤ × ℤ) (e : CacheEntry) :
    (pushEntry c k e).map Prod.fst =
      if 100 < c.length + 1 then (c.map Prod.fst ++ [k]).tail
      else c.map Prod.fst ++ [k] := by
  unfold pushEntry
  have hlen : (c ++ [(k, e)]).length = c.length + 1 := by simp
  rw [hlen]
  split_ifs with h
  · cases c with
    | nil => simp at h
    | cons a t => simp
  · simp

/-- The fill phase: as long as the cache stays within the bound, updates at
fresh quantized keys append their entries in insertion order. -/
theorem runUpdates_fill (rayDir : ℚ → ℚ × ℚ) (m : Maze) (cs : ℚ) :
    ∀ (ps : List (ℚ × ℚ)) (s : RCState),
      (s.cache.map Prod.fst ++ ps.map qkey).Nodup →
      s.cache.length + ps.length ≤ 100 →
      (runUpdates rayDir m cs s ps).cache.map Prod.fst =
        s.cache.map Prod.fst ++ ps.map qkey := by
  intro ps
  induction ps with
  | nil => intro s _ _; simp [runUpdates]
  | cons p ps ih =>
    intro s hnd hlen
    simp only [List.map_cons] at hnd
    have hknotin : qkey p ∉ s.cache.map Prod.fst := by
      rcases List.nodup_append.mp hnd with ⟨-, -, hdisj⟩
      intro hmem
      exact hdisj hmem (List.mem_cons_self _ _)
    have hfind : findEntry (qkey p) s.cache = none :=
      (findEntry_eq_none_iff _ _).mpr hknotin
    have hstep : runUpdates rayDir m cs s (p :: ps) =
        runUpdates rayDir m cs (update rayDir s p.1 p.2 m cs).2 ps := by
      simp [runUpdates]
    rw [hstep]
    have hu := update_miss rayDir s p.1 p.2 m cs hfind
    have hkeys : (update rayDir s p.1 p.2 m cs).2.cache.map Prod.fst =
        s.cache.map Prod.fst ++ [qkey p] := by
      rw [hu]
      rw [keys_pushEntry]
      rw [if_neg (by simp at hlen; omega)]
      rfl
    have hlen2 : (update rayDir s p.1 p.2 m cs).2.cache.length = s.cache.length + 1 := by
      have := congrArg List.length hkeys
      simpa using this
    rw [ih (update rayDir s p.1 p.2 m cs).2 ?_ ?_, hkeys]
    · simp
    · rw [hkeys]
      simpa [List.append_assoc] using hnd
    · rw [hlen2]
      simp at hlen
      omega

/-- C5: starting from an empty cache, after 101 updates at positions with
pairwise distinct quantized keys the cache holds exactly 100 entries, the
entry for the first position has been evicted, and the surviving keys are
exactly those of the second through the 101st position in insertion order
(strict insertion-order FIFO eviction of the oldest entry). -/
theorem c5_cache_bound_fifo (rayDir : ℚ → ℚ × ℚ) (m : Maze) (cs : ℚ) (s : RCState)
    (p0 plast : ℚ × ℚ) (mid : List (ℚ × ℚ))
    (hc : s.cache = []) (hm : mid.length = 99)
    (hnd : (((p0 :: mid) ++ [plast]).map qkey).Nodup) :
    (runUpdates rayDir m cs s ((p0 :: mid) ++ [plast])).cache.length = 100 ∧
    findEntry (qkey p0) (runUpdates rayDir m cs s ((p0 :: mid) ++ [plast])).cache = none ∧
    (runUpdates rayDir m cs s ((p0 :: mid) ++ [plast])).cache.map Prod.fst =
      (mid ++ [plast]).map qkey := by
  have hnd' : ((p0 :: mid).map qkey ++ [qkey plast]).Nodup := by simpa using hnd
  have hsplit : runUpdates rayDir m cs s ((p0 :: mid) ++ [plast]) =
      (update rayDir (runUpdates rayDir m cs s (p0 :: mid)) plast.1 plast.2 m cs).2 := by
    simp [runUpdates, List.foldl_append]
  have hnd1 : (s.cache.map Prod.fst ++ (p0 :: mid).map qkey).Nodup := by
    rw [hc]
    simpa using (List.nodup_append.mp hnd').1
  have hlen1 : s.cache.length + (p0 :: mid).length ≤ 100 := by
    rw [hc]; simp [hm]
  have hkeys1 : (runUpdates rayDir m cs s (p0 :: mid)).cache.map Prod.fst =
      (p0 :: mid).map qkey := by
    have hfill := runUpdates_fill rayDir m cs (p0 :: mid) s hnd1 hlen1
    rw [hc] at hfill
    simpa using hfill
  have hlen1' : (runUpdates rayDir m cs s (p0 :: mid)).cache.length = 100 := by
    have := congrArg List.length hkeys1
    simpa [hm] using this
  have hnotin : qkey plast ∉ (runUpdates rayDir m cs s (p0 :: mid)).cache.map Prod.fst := by
    rw [hkeys1]
    rcases List.nodup_append.mp hnd' with ⟨-, -, hdisj⟩
    intro hmem
    exact hdisj hmem (by simp)
  have hfind1 : findEntry (qkey plast) (runUpdates rayDir m cs s (p0 :: mid)).cache = none :=
    (findEntry_eq_none_iff _ _).mpr hnotin
  have hu := update_miss rayDir (runUpdates rayDir m cs s (p0 :: mid)) plast.1 plast.2 m cs hfind1
  have hgt : 100 < (runUpdates rayDir m cs s (p0 :: mid)).cache.length + 1 := by
    rw [hlen1']; norm_num
  have hkeys2 : (update rayDir (runUpdates rayDir m cs s (p0 :: mid)) plast.1 plast.2
        m cs).2.cache.map Prod.fst =
      ((runUpdates rayDir m cs s (p0 :: mid)).cache.map Prod.fst ++ [qkey plast]).tail := by
    rw [hu]
    rw [keys_pushEntry, if_pos hgt]
    rfl
  rw [hsplit]
  have htail : ((runUpdates rayDir m cs s (p0 :: mid)).cache.map Prod.fst ++
        [qkey plast]).tail = mid.map qkey ++ [qkey plast] := by
    rw [hkeys1]
    simp
  refine ⟨?_, ?_, ?_⟩
  · have := congrArg List.length hkeys2
    simp only [List.length_map] at this
    rw [this, htail]
    simp [hm]
  · apply (findEntry_eq_none_iff _ _).mpr
    rw [hkeys2, htail]
    have hcons : (qkey p0 :: (mid.map qkey ++ [qkey plast])).Nodup := by
      simpa using hnd
    exact (List.nodup_cons.mp hcons).1
  · rw [hkeys2, htail]
    simp

/-- Witness for C5: 101 concrete positions with distinct quantized keys. -/
theorem c5_cache_bound_fifo_witness :
    (rcs0.cache = [] ∧ w5mid.length = 99 ∧
      (((((0 : ℚ), (0 : ℚ)) :: w5mid) ++ [((100 : ℚ), 0)]).map qkey).Nodup) ∧
    (runUpdates cardinalDir mX 10 rcs0 ((((0 : ℚ), (0 : ℚ)) :: w5mid) ++
        [((100 : ℚ), 0)])).cache.length = 100 ∧
    findEntry (qkey ((0 : ℚ), (0 : ℚ)))
      (runUpdates cardinalDir mX 10 rcs0 ((((0 : ℚ), (0 : ℚ)) :: w5mid) ++
        [((100 : ℚ), 0)])).cache = none :=
  ⟨⟨rfl, by with_unfolding_all decide, by with_unfolding_all decide⟩,
   (c5_cache_bound_fifo cardinalDir mX 10 rcs0 ((0 : ℚ), (0 : ℚ)) ((100 : ℚ), 0) w5mid
     rfl (by with_unfolding_all decide) (by with_unfolding_all decide)).1,
   (c5_cache_bound_fifo cardinalDir mX 10 rcs0 ((0 : ℚ), (0 : ℚ)) ((100 : ℚ), 0) w5mid
     rfl (by with_unfolding_all decide) (by with_unfolding_all decide)).2.1⟩

/-- In a maze whose only wall segment is the horizontal wall `(wr, wc)`,
with the candidate's x inside the segment's span and the segment within
the 3×3 neighborhood of the candidate's cell, the collision test fires
exactly when the perpendicular distance to the wall line is below the
radius. -/
theorem checkWall_single_hwall (m : Maze) (cs x y rad : ℚ) (wr wc : ℤ)
    (hH : ∀ r c, m.hwall r c = true ↔ (r = wr ∧ c = wc))
    (hV : ∀ r c, m.vwall r c = false)
    (hs : (wc : ℚ) * cs ≤ x ∧ x ≤ ((wc : ℚ) + 1) * cs)
    (hn : ⌊x / cs⌋ - 1 ≤ wc ∧ wc ≤ ⌊x / cs⌋ + 1 ∧
      ⌊y / cs⌋ - 1 ≤ wr ∧ wr ≤ ⌊y / cs⌋ + 1) :
    checkWallCollision m cs x y rad = true ↔ |y - (wr : ℚ) * cs| < rad := by
  obtain ⟨hn1, hn2, hn3, hn4⟩ := hn
  constructor
  · intro hcol
    rcases List.any_eq_true.mp hcol with ⟨o, -, hcoll⟩
    simp only [cellCollision, hwallHit, vwallHit, Bool.or_eq_true, Bool.and_eq_true,
      decide_eq_true_eq, hH, hV, Bool.false_and, Bool.false_eq_true, false_and,
      or_false, false_or] at hcoll
    rcases hcoll with ⟨⟨hr, -⟩, hd, -, -⟩ | ⟨⟨hr, -⟩, hd, -, -⟩
    · rw [hr] at hd; exact hd
    · rw [hr] at hd; exact hd
  · intro hd
    have ex : ⌊x / cs⌋ + (wc - ⌊x / cs⌋) = wc := by ring
    have ey : ⌊y / cs⌋ + (wr - ⌊y / cs⌋) = wr := by ring
    have hhit : hwallHit m cs x y rad (⌊x / cs⌋ + (wc - ⌊x / cs⌋))
        (⌊y / cs⌋ + (wr - ⌊y / cs⌋)) = true := by
      rw [ex, ey]
      simp only [hwallHit, Bool.and_eq_true, decide_eq_true_eq]
      exact ⟨(hH wr wc).mpr ⟨rfl, rfl⟩, hd, hs.1, hs.2⟩
    apply List.any_eq_true.mpr
    refine ⟨(wc - ⌊x / cs⌋, wr - ⌊y / cs⌋), ?_, ?_⟩
    · have hdx : wc - ⌊x / cs⌋ = -1 ∨ wc - ⌊x / cs⌋ = 0 ∨ wc - ⌊x / cs⌋ = 1 := by omega
      have hdy : wr - ⌊y / cs⌋ = -1 ∨ wr - ⌊y / cs⌋ = 0 ∨ wr - ⌊y / cs⌋ = 1 := by omega
      rcases hdx with h | h | h <;> rcases hdy with h' | h' | h' <;>
        simp [offsets, h, h']
    · simp only [cellCollision]
      simp
      rw [ex, ey] at hhit
      exact Or.inl (Or.inl (Or.inl hhit))

/-- Symmetric single-wall collision characterization for a vertical wall. -/
theorem checkWall_single_vwall (m : Maze) (cs x y rad : ℚ) (wr wc : ℤ)
    (hH : ∀ r c, m.hwall r c = false)
    (hV : ∀ r c, m.vwall r c = true ↔ (r = wr ∧ c = wc))
    (hs : (wr : ℚ) * cs ≤ y ∧ y ≤ ((wr : ℚ) + 1) * cs)
    (hn : ⌊x / cs⌋ - 1 ≤ wc ∧ wc ≤ ⌊x / cs⌋ + 1 ∧
      ⌊y / cs⌋ - 1 ≤ wr ∧ wr ≤ ⌊y / cs⌋ + 1) :
    checkWallCollision m cs x y rad = true ↔ |x - (wc : ℚ) * cs| < rad := by
  obtain ⟨hn1, hn2, hn3, hn4⟩ := hn
  constructor
  · intro hcol
    rcases List.any_eq_true.mp hcol with ⟨o, -, hcoll⟩
    simp only [cellCollision, hwallHit, vwallHit, Bool.or_eq_true, Bool.and_eq_true,
      decide_eq_true_eq, hH, hV, Bool.false_and, Bool.false_eq_true, false_and,
      or_false, false_or] at hcoll
    rcases hcoll with ⟨⟨-, hc⟩, hd, -, -⟩ | ⟨⟨-, hc⟩, hd, -, -⟩
    · rw [hc] at hd; exact hd
    · rw [hc] at hd; exact hd
  · intro hd
    have ex : ⌊x / cs⌋ + (wc - ⌊x / cs⌋) = wc := by ring
    have ey : ⌊y / cs⌋ + (wr - ⌊y / cs⌋) = wr := by ring
    have hhit : vwallHit m cs x y rad (⌊y / cs⌋ + (wr - ⌊y / cs⌋))
        (⌊x / cs⌋ + (wc - ⌊x / cs⌋)) = true := by
      rw [ex, ey]
      simp only [vwallHit, Bool.and_eq_true, decide_eq_true_eq]
      exact ⟨(hV wr wc).mpr ⟨rfl, rfl⟩, hd, hs.1, hs.2⟩
    apply List.any_eq_true.mpr
    refine ⟨(wc - ⌊x / cs⌋, wr - ⌊y / cs⌋), ?_, ?_⟩
    · have hdx : wc - ⌊x / cs⌋ = -1 ∨ wc - ⌊x / cs⌋ = 0 ∨ wc - ⌊x / cs⌋ = 1 := by omega
      have hdy : wr - ⌊y / cs⌋ = -1 ∨ wr - ⌊y / cs⌋ = 0 ∨ wr - ⌊y / cs⌋ = 1 := by omega
      rcases hdx with h | h | h <;> rcases hdy with h' | h' | h' <;>
        simp [offsets, h, h']
    · simp only [cellCollision]
      simp
      rw [ex, ey] at hhit
      exact Or.inl (Or.inr hhit)

/-- C3: for a candidate center inside the maze bounds (radius margin
respected) and a single set wall segment whose span contains the
candidate's coordinate along the wall and which lies within the 3×3
neighborhood of the candidate's cell, `canMoveTo` returns false if and
only if the perpendicular distance from the candidate center to the wall
line is below the player radius — stated for a horizontal wall and,
symmetrically, for a vertical wall. -/
theorem c3_collision_soundness :
    (∀ (g : Game) (x y : ℚ) (wr wc : ℤ),
      (∀ r c, g.maze.hwall r c = true ↔ (r = wr ∧ c = wc)) →
      (∀ r c, g.maze.vwall r c = false) →
      ¬(x - g.player.radius < 0 ∨ g.mazeSize * g.cellSize < x + g.player.radius ∨
        y - g.player.radius < 0 ∨ g.mazeSize * g.cellSize < y + g.player.radius) →
      ((wc : ℚ) * g.cellSize ≤ x ∧ x ≤ ((wc : ℚ) + 1) * g.cellSize) →
      (⌊x / g.cellSize⌋ - 1 ≤ wc ∧ wc ≤ ⌊x / g.cellSize⌋ + 1 ∧
        ⌊y / g.cellSize⌋ - 1 ≤ wr ∧ wr ≤ ⌊y / g.cellSize⌋ + 1) →
      (canMoveTo g x y = false ↔ |y - (wr : ℚ) * g.cellSize| < g.player.radius)) ∧
    (∀ (g : Game) (x y : ℚ) (wr wc : ℤ),
      (∀ r c, g.maze.hwall r c = false) →
      (∀ r c, g.maze.vwall r c = true ↔ (r = wr ∧ c = wc)) →
      ¬(x - g.player.radius < 0 ∨ g.mazeSize * g.cellSize < x + g.player.radius ∨
        y - g.player.radius < 0 ∨ g.mazeSize * g.cellSize < y + g.player.radius) →
      ((wr : ℚ) * g.cellSize ≤ y ∧ y ≤ ((wr : ℚ) + 1) * g.cellSize) →
      (⌊x / g.cellSize⌋ - 1 ≤ wc ∧ wc ≤ ⌊x / g.cellSize⌋ + 1 ∧
        ⌊y / g.cellSize⌋ - 1 ≤ wr ∧ wr ≤ ⌊y / g.cellSize⌋ + 1) →
      (canMoveTo g x y = false ↔ |x - (wc : ℚ) * g.cellSize| < g.player.radius)) := by
  constructor
  · intro g x y wr wc hH hV hb hs hn
    have hneg : canMoveTo g x y = false ↔
        checkWallCollision g.maze g.cellSize x y g.player.radius = true := by
      unfold canMoveTo
      rw [if_neg hb]
      cases hcc : checkWallCollision g.maze g.cellSize x y g.player.radius <;> simp [hcc]
    rw [hneg]
    exact checkWall_single_hwall g.maze g.cellSize x y g.player.radius wr wc hH hV hs hn
  · intro g x y wr wc hH hV hb hs hn
    have hneg : canMoveTo g x y = false ↔
        checkWallCollision g.maze g.cellSize x y g.player.radius = true := by
      unfold canMoveTo
      rw [if_neg hb]
      cases hcc : checkWallCollision g.maze g.cellSize x y g.player.radius <;> simp [hcc]
    rw [hneg]
    exact checkWall_single_vwall g.maze g.cellSize x y g.player.radius wr wc hH hV hs hn

/-- Witness for C3 in `wallMaze`: the candidate `(45, 38)` sits 2 pixels
from the single horizontal wall at `y = 40`, within its span. -/
theorem c3_collision_soundness_witness :
    (|(38 : ℚ) - ((1 : ℤ) : ℚ) * g3.cellSize| < g3.player.radius) ∧
    (canMoveTo g3 45 38 = false ↔
      |(38 : ℚ) - ((1 : ℤ) : ℚ) * g3.cellSize| < g3.player.radius) :=
  ⟨by with_unfolding_all decide,
   c3_collision_soundness.1 g3 45 38 1 1
     (by intro r c; simp [g3, wallMaze])
     (fun r c => rfl)
     (by with_unfolding_all decide)
     (by with_unfolding_all decide)
     (by with_unfolding_all decide)⟩

/-- A point that passed the occlusion test has its cell inside the grid
(the out-of-bounds disjunct of `isPointInWall` is the first check). -/
theorem not_inWall_bounds {m : Maze} {cs x y : ℚ} (h : isPointInWall m cs x y = false) :
    0 ≤ ⌊x / cs⌋ ∧ ⌊x / cs⌋ < m.width ∧ 0 ≤ ⌊y / cs⌋ ∧ ⌊y / cs⌋ < m.height := by
  simp only [isPointInWall, Bool.or_eq_false_iff] at h
  obtain ⟨⟨⟨⟨⟨⟨⟨h1, h2⟩, h3⟩, h4⟩, -⟩, -⟩, -⟩, -⟩ := h
  simp only [decide_eq_false_iff_not, not_lt, not_le] at h1 h2 h3 h4
  exact ⟨h1, h2, h3, h4⟩

/-- Every point recorded by the ray-march loop passed the occlusion test. -/
theorem mem_castRayAux (m : Maze) (cs dX dY st md : ℚ) :
    ∀ (fuel : ℕ) (cx cy d : ℚ) (p : Point),
      p ∈ castRayAux m cs dX dY st md fuel cx cy d →
      isPointInWall m cs p.x p.y = false := by
  intro fuel
  induction fuel with
  | zero => intro cx cy d p hp; simp [castRayAux] at hp
  | succ f ih =>
    intro cx cy d p hp
    simp only [castRayAux] at hp
    split_ifs at hp with h1 h2 h3
    · simp at hp
    · simp only [List.mem_singleton] at hp
      subst hp
      exact Bool.eq_false_iff.mpr h2
    · rcases List.mem_cons.mp hp with hp | hp
      · subst hp
        exact Bool.eq_false_iff.mpr h2
      · exact ih _ _ _ p hp
    · simp at hp

/-- Rewriting step for the last element of a list with two or more items. -/
theorem lastOpt_cons_cons {α : Type} (a b : α) (t : List α) :
    lastOpt (a :: b :: t) = lastOpt (b :: t) := rfl

/-- The last recorded point of the ray-march loop: when the fuel dominates
the remaining path budget, the loop ends either because the next point is
occluded or out of bounds, or because the cumulative distance reached the
cap (`p.distance` is the first step multiple at or past `maxDist`). -/
theorem lastOpt_castRayAux (m : Maze) (cs dX dY st md : ℚ) :
    ∀ (fuel : ℕ) (cx cy d : ℚ) (p : Point),
      md ≤ d + (fuel : ℚ) * st →
      lastOpt (castRayAux m cs dX dY st md fuel cx cy d) = some p →
      isPointInWall m cs (p.x + dX * st) (p.y + dY * st) = true ∨
        (md ≤ p.distance ∧ p.distance - st < md) := by
  intro fuel
  induction fuel with
  | zero =>
    intro cx cy d p hsuf hl
    simp [castRayAux, lastOpt] at hl
  | succ f ih =>
    intro cx cy d p hsuf hl
    simp only [castRayAux] at hl
    split_ifs at hl with h1 h2 h3
    · simp [lastOpt] at hl
    · exfalso
      have h2f : isPointInWall m cs (cx + dX * st) (cy + dY * st) = false :=
        Bool.eq_false_iff.mpr h2
      obtain ⟨b1, b2, b3, b4⟩ := not_inWall_bounds h2f
      rcases h3 with h | h | h | h <;> omega
    · cases hrec : castRayAux m cs dX dY st md f (cx + dX * st) (cy + dY * st) (d + st) with
      | nil =>
        rw [hrec] at hl
        simp only [lastOpt, Option.some.injEq] at hl
        subst hl
        cases f with
        | zero =>
          right
          push_cast at hsuf
          constructor
          · show md ≤ d + st
            linarith
          · show d + st - st < md
            linarith
        | succ f2 =>
          by_cases g1 : d + st < md
          · simp only [castRayAux, if_pos g1] at hrec
            by_cases g2 : isPointInWall m cs (cx + dX * st + dX * st)
                (cy + dY * st + dY * st) = true
            · left
              exact g2
            · rw [if_neg g2] at hrec
              split_ifs at hrec with g3
          · right
            constructor
            · exact not_lt.mp g1
            · show d + st - st < md
              linarith
      | cons r rs =>
        rw [hrec] at hl
        rw [lastOpt_cons_cons] at hl
        rw [← hrec] at hl
        apply ih (cx + dX * st) (cy + dY * st) (d + st) p ?_ hl
        push_cast at hsuf ⊢
        linarith
    · simp [lastOpt] at hl

/-- The default fuel dominates the path budget when the step is positive. -/
theorem rayFuel_suff (st md : ℚ) (hst : 0 < st) :
    md ≤ 0 + (rayFuel st md : ℚ) * st := by
  rw [rayFuel, if_pos hst, zero_add]
  push_cast
  rcases le_or_lt md 0 with h | h
  · have hpos : (0 : ℚ) ≤ ((⌈md / st⌉.toNat : ℚ) + 1) * st := by positivity
    linarith
  · have h3 : ((⌈md / st⌉ : ℤ) : ℚ) ≤ (⌈md / st⌉.toNat : ℚ) + 1 := by
      have hself : (⌈md / st⌉ : ℤ) ≤ (⌈md / st⌉.toNat : ℤ) := Int.self_le_toNat _
      have hcast : ((⌈md / st⌉ : ℤ) : ℚ) ≤ ((⌈md / st⌉.toNat : ℤ) : ℚ) := by
        exact_mod_cast hself
      push_cast at hcast
      linarith
    have h1 : md / st ≤ ((⌈md / st⌉ : ℤ) : ℚ) := Int.le_ceil _
    have hle : md / st ≤ (⌈md / st⌉.toNat : ℚ) + 1 := le_trans h1 h3
    calc md = md / st * st := (div_mul_cancel₀ md (ne_of_gt hst)).symm
      _ ≤ ((⌈md / st⌉.toNat : ℚ) + 1) * st :=
        mul_le_mul_of_nonneg_right hle (le_of_lt hst)

/-- C2 (amended): for every ray with a positive step, every recorded
point's cell lies inside `[0, width) × [0, height)`, and the last recorded
point either has an occluded or out-of-bounds successor point, or is the
first recorded point with cumulative distance at or past
`maxRayDistance * cellSize` (equal to it exactly when the step divides the
cap). -/
theorem c2_ray_boundary_safety (cfg : RayConfig) (m : Maze) (cs sx sy dX dY : ℚ)
    (hstep : 0 < cfg.rayStep * cs) :
    (∀ p ∈ castRay cfg m cs sx sy dX dY,
      0 ≤ ⌊p.x / cs⌋ ∧ ⌊p.x / cs⌋ < m.width ∧ 0 ≤ ⌊p.y / cs⌋ ∧ ⌊p.y / cs⌋ < m.height) ∧
    (∀ p, lastOpt (castRay cfg m cs sx sy dX dY) = some p →
      isPointInWall m cs (p.x + dX * (cfg.rayStep * cs))
          (p.y + dY * (cfg.rayStep * cs)) = true ∨
        (cfg.maxRayDistance * cs ≤ p.distance ∧
          p.distance - cfg.rayStep * cs < cfg.maxRayDistance * cs)) := by
  constructor
  · intro p hp
    simp only [castRay] at hp
    exact not_inWall_bounds (mem_castRayAux m cs dX dY _ _ _ _ _ _ p hp)
  · intro p hl
    simp only [castRay] at hl
    exact lastOpt_castRayAux m cs dX dY _ _ _ sx sy 0 p
      (rayFuel_suff _ _ hstep) hl

/-- Witness for C2 on the scenario configuration and the axis ray. -/
theorem c2_ray_boundary_safety_witness :
    0 < cfg4.rayStep * (40 : ℚ) ∧
    (∀ p ∈ castRay cfg4 m5 40 100 100 1 0,
      0 ≤ ⌊p.x / 40⌋ ∧ ⌊p.x / 40⌋ < m5.width ∧ 0 ≤ ⌊p.y / 40⌋ ∧ ⌊p.y / 40⌋ < m5.height) :=
  ⟨by with_unfolding_all decide,
   (c2_ray_boundary_safety cfg4 m5 40 100 100 1 0 (by with_unfolding_all decide)).1⟩

/-- Counterexample to C2 as stated: with `rayStep = 0.4` and
`maxRayDistance = 1` (cell size 10), the ray from `(50, 50)` along the
x-axis in the open 10×10 maze ends at the point `(62, 50)` with cumulative
distance 12: its successor point is neither occluded nor out of bounds,
and 12 differs from `maxRayDistance * cellSize = 10` — the loop records
one step past the cap when the step does not divide it. -/
theorem c2_counterexample :
    lastOpt (castRay cfgX mX 10 50 50 1 0) = some ⟨62, 50, 12⟩ ∧
    isPointInWall mX 10 (62 + 1 * (cfgX.rayStep * 10)) (50 + 0 * (cfgX.rayStep * 10)) =
      false ∧
    (12 : ℚ) ≠ cfgX.maxRayDistance * 10 := by
  refine ⟨?_, ?_, ?_⟩ <;> with_unfolding_all decide

set_option maxRecDepth 100000 in
/-- C4 (amended): in the 5×5 open maze with cell size 40, origin
`(100, 100)`, `rayCount = 4`, `fov = 360`, `maxRayDistance = 2`,
`rayStep = 0.1`, `update` casts exactly the four rays at 0°, 90°, 180°,
270° (the returned point list is their concatenation), and each ray's last
recorded point lies at cumulative distance exactly 80 px — the
`maxRayDistance` cap — since no wall lies within two cells of the center;
the ~10%-cell occlusion band never triggers on these rays. -/
theorem c4_open_maze_scenario :
    (update cardinalDir rcs0 100 100 m5 40).1 =
      castRay cfg4 m5 40 100 100 1 0 ++ castRay cfg4 m5 40 100 100 0 1 ++
        castRay cfg4 m5 40 100 100 (-1) 0 ++ castRay cfg4 m5 40 100 100 0 (-1) ∧
    lastOpt (castRay cfg4 m5 40 100 100 1 0) = some ⟨180, 100, 80⟩ ∧
    lastOpt (castRay cfg4 m5 40 100 100 0 1) = some ⟨100, 180, 80⟩ ∧
    lastOpt (castRay cfg4 m5 40 100 100 (-1) 0) = some ⟨20, 100, 80⟩ ∧
    lastOpt (castRay cfg4 m5 40 100 100 0 (-1)) = some ⟨100, 20, 80⟩ := by
  refine ⟨?_, ?_, ?_, ?_, ?_⟩ <;> with_unfolding_all decide

set_option maxRecDepth 100000 in
/-- Counterexample to C4 as stated: in the §8 scenario the ray at 0° ends
at the point `(180, 100)` with cumulative distance exactly 80 px, which is
not near 76 px (it differs by a full step length): no occlusion shortens
the ray, because the maze boundary lies beyond the 2-cell ray range. -/
theorem c4_counterexample :
    lastOpt (castRay cfg4 m5 40 100 100 1 0) = some ⟨180, 100, 80⟩ ∧
    ¬(|(80 : ℚ) - 76| ≤ 2) := by
  constructor
  · with_unfolding_all decide
  · with_unfolding_all decide

end HiddenMaze
